import Mathlib

/-!
Verification of the WFS log-structured filesystem (mount.wfs.c, fsck.wfs.c,
mkfs.wfs.c, wfs.h) against its natural-language specification.

The disk is modelled at byte level as a list of natural numbers; every
serialized integer is little-endian, matching the x86-64 struct layout of
the source: `struct wfs_sb` is 8 bytes (u32 magic, u32 head),
`struct wfs_inode` is 44 bytes (11 u32 fields in declaration order), and
`struct wfs_dentry` is 40 bytes (32 name bytes, u64 inode_number).
`DISK_SIZE` is a compile-time constant of the build (it is defined outside
the four source files), so every operation takes it as a parameter `ds`.

Modelling conventions, stated once:
* a read of a byte outside the mapped region yields 0 and a write outside
  it is dropped (the C program would fault there; no claim depends on the
  value of such a byte);
* pointer arithmetic on the mapped region is modelled at base 0 modulo
  2^64, so `mapped_disk + a > mapped_disk + b` becomes `a % 2^64 > b % 2^64`
  wherever the C expression can wrap;
* unsigned C arithmetic is modelled with explicit `% 2^32` / `% 2^64`;
* a dereference of a null pointer (or other undefined behaviour that stops
  the program) is modelled by returning `none` from the operation;
* bytes that the C program leaves uninitialized (the tail of a dentry name
  after the terminator, malloc contents) are modelled as zeros; no claim
  depends on their value.
-/

/-- The disk image: a byte array accessed by offset. -/
abbrev Disk := List Nat

/-- Read one byte; out-of-range reads give 0 (see the modelling notes). -/
def readByte (d : Disk) (i : Nat) : Nat := d.getD i 0

/-- Write one byte; out-of-range writes are dropped (List.set semantics). -/
def writeByte (d : Disk) (i v : Nat) : Disk := d.set i v

/-- Write a run of bytes starting at `off`. -/
def writeBytes (d : Disk) (off : Nat) : List Nat → Disk
  | [] => d
  | b :: bs => writeBytes (d.set off b) (off + 1) bs

/-- Bytes at `off, off+1, …, off+len-1`. -/
def readBytes (d : Disk) (off len : Nat) : List Nat :=
  (List.range len).map (fun k => readByte d (off + k))

/-- Little-endian bytes of a 32-bit value (extra high bits are dropped,
as a store to a u32 field does). -/
def u32Bytes (v : Nat) : List Nat :=
  [v % 256, v / 256 % 256, v / 65536 % 256, v / 16777216 % 256]

/-- Little-endian bytes of a 64-bit value. -/
def u64Bytes (v : Nat) : List Nat :=
  [v % 256, v / 256 % 256, v / 65536 % 256, v / 16777216 % 256,
   v / 4294967296 % 256, v / 1099511627776 % 256,
   v / 281474976710656 % 256, v / 72057594037927936 % 256]

/-- Read a u32 at byte offset `off`. -/
def readU32 (d : Disk) (off : Nat) : Nat :=
  readByte d off + 256 * readByte d (off + 1) + 65536 * readByte d (off + 2)
    + 16777216 * readByte d (off + 3)

/-- Read a u64 at byte offset `off`. -/
def readU64 (d : Disk) (off : Nat) : Nat :=
  readU32 d off + 4294967296 * readU32 d (off + 4)

/-- Store a u32 (the byte encoding truncates to 32 bits). -/
def writeU32 (d : Disk) (off v : Nat) : Disk := writeBytes d off (u32Bytes v)

/-- The superblock head field: u32 at offset 4 (`((struct wfs_sb *)mapped_disk)->head`). -/
def readHead (d : Disk) : Nat := readU32 d 4

/-- S_ISDIR on a u32 mode: bits 12..15 equal 0o04 (S_IFDIR = 0x4000).
Written arithmetically: `(m & 0xF000) == 0x4000` iff `m / 4096 % 16 = 4`. -/
def S_ISDIR (m : Nat) : Bool := m / 4096 % 16 == 4

/-- S_ISREG on a u32 mode: bits 12..15 equal 0o10 (S_IFREG = 0x8000). -/
def S_ISREG (m : Nat) : Bool := m / 4096 % 16 == 8

/-- `S_IFDIR | mode` on a u32 mode (sets bit 14), used by wfs_mkdir. -/
def orDirBit (m : Nat) : Nat := if m / 16384 % 2 == 1 then m else m + 16384

/-- struct wfs_inode, 11 u32 fields in source order (wfs.h). -/
structure Inode where
  inode_number : Nat
  deleted : Nat
  mode : Nat
  uid : Nat
  gid : Nat
  flags : Nat
  size : Nat
  atime : Nat
  mtime : Nat
  ctime : Nat
  links : Nat

/-- Byte image of an inode record (44 bytes, no padding on x86-64). -/
def encodeInode (i : Inode) : List Nat :=
  u32Bytes i.inode_number ++ u32Bytes i.deleted ++ u32Bytes i.mode ++
  u32Bytes i.uid ++ u32Bytes i.gid ++ u32Bytes i.flags ++ u32Bytes i.size ++
  u32Bytes i.atime ++ u32Bytes i.mtime ++ u32Bytes i.ctime ++ u32Bytes i.links

/-- Decode the inode record stored at byte offset `off`. -/
def decodeInode (d : Disk) (off : Nat) : Inode :=
  ⟨readU32 d off, readU32 d (off + 4), readU32 d (off + 8), readU32 d (off + 12),
   readU32 d (off + 16), readU32 d (off + 20), readU32 d (off + 24),
   readU32 d (off + 28), readU32 d (off + 32), readU32 d (off + 36),
   readU32 d (off + 40)⟩

/-- Name field of a dentry, zero-padded to 32 bytes (strcpy into the name
buffer; the bytes after the terminator are modelled as zeros). -/
def pad32 (name : List Nat) : List Nat :=
  name.take 32 ++ List.replicate (32 - (name.take 32).length) 0

/-- Byte image of a struct wfs_dentry (40 bytes: name, then u64 inode_number). -/
def encodeDentry (name : List Nat) (inum : Nat) : List Nat :=
  pad32 name ++ u64Bytes inum

/-- The C string held in a byte buffer: everything before the first 0. -/
def cstr (bs : List Nat) : List Nat := bs.takeWhile (fun b => b != 0)

/-- strcmp(a, b) == 0 for the C strings held in the two buffers. -/
def streq (a b : List Nat) : Bool := cstr a == cstr b

/-- Advance past the log entry at `pos`
(`current_position += sizeof(struct wfs_inode) + current_entry->inode.size`). -/
def scanStep (d : Disk) (pos : Nat) : Nat := pos + 44 + readU32 d (pos + 24)

/-- The log-scan loop of `read_inumber` in mount.wfs.c: remember the offset
of the last entry whose `inode_number` matches, stepping entry by entry
while `current_position < mapped_disk + head`. `fuel` only bounds the
recursion; `readHead d` steps always suffice because every step advances by
at least 44 bytes. -/
def scanLatest (d : Disk) (n : Nat) : Nat → Nat → Option Nat → Option Nat
  | 0, _, acc => acc
  | fuel + 1, pos, acc =>
    if pos < readHead d then
      scanLatest d n fuel (scanStep d pos)
        (if readU32 d pos == n then some pos else acc)
    else acc

/-- `read_inumber` (mount.wfs.c): offset of the latest log entry bearing
inode number `n`, or none. The C function returns a pointer into the disk;
we return the byte offset of the record. Note the source compares only
`inode.inode_number` — it never consults `deleted`. -/
def read_inumber (d : Disk) (n : Nat) : Option Nat :=
  scanLatest d n (readHead d) 8 none

/-- The chain of entry offsets visited by the scan loops, same stepping and
same fuel as `scanLatest`. -/
def scanOffsetsF (d : Disk) : Nat → Nat → List Nat
  | 0, _ => []
  | fuel + 1, pos =>
    if pos < readHead d then pos :: scanOffsetsF d fuel (scanStep d pos) else []

/-- All entry offsets the scan visits, from `sizeof(struct wfs_sb)` to head. -/
def scanChain (d : Disk) : List Nat := scanOffsetsF d (readHead d) 8

/-- The visited offsets whose entry bears inode number `n`. -/
def matchOffsets (d : Disk) (n : Nat) : List Nat :=
  (scanChain d).filter (fun off => readU32 d off == n)

/-- `get_largest_inumber` (mount.wfs.c and fsck.wfs.c, identical code):
maximum `inode_number` over all scanned entries, 0 for an empty log. -/
def getLargestF (d : Disk) : Nat → Nat → Nat → Nat
  | 0, _, acc => acc
  | fuel + 1, pos, acc =>
    if pos < readHead d then
      getLargestF d fuel (scanStep d pos)
        (if acc < readU32 d pos then readU32 d pos else acc)
    else acc

/-- `get_largest_inumber`: scan the whole log for the maximum inode number. -/
def get_largest_inumber (d : Disk) : Nat := getLargestF d (readHead d) 8 0

/-- The dentry-search loop inside `read_path`: walk the directory payload at
`base` in 40-byte steps while `directory_offset < size`, returning the
`inode_number` of the first entry whose name strcmp-equals `tok`. -/
def findDentryF (d : Disk) (base size : Nat) (tok : List Nat) : Nat → Nat → Option Nat
  | 0, _ => none
  | fuel + 1, off =>
    if off < size then
      if streq (readBytes d (base + off) 32) tok then some (readU64 d (base + off + 32))
      else findDentryF d base size tok fuel (off + 40)
    else none

/-- First matching dentry in the payload of the entry at `base - 44`. -/
def findDentry (d : Disk) (base size : Nat) (tok : List Nat) : Option Nat :=
  findDentryF d base size tok (size + 1) 0

/-- Maximal non-empty substrings between '/' bytes (47), i.e. the token
sequence strtok(path, "/") produces. `cur` is the (reversed) token being
accumulated. -/
def tokAux : List Nat → List Nat → List (List Nat)
  | [], cur => if cur == [] then [] else [cur.reverse]
  | c :: rest, cur =>
    if c == 47 then
      (if cur == [] then tokAux rest [] else cur.reverse :: tokAux rest [])
    else tokAux rest (c :: cur)

/-- Token list of a path. -/
def tokenize (path : List Nat) : List (List Nat) := tokAux path []

/-- The component walk of `read_path` (mount.wfs.c). `found` is the flag the
source resets to 0 at the top of each iteration; after the loop the function
returns NULL when the flag is still 0, otherwise `read_inumber(current)`.
When a component is not found in the current directory the source does NOT
stop: it keeps `current_inode_number` and goes on to the next token.
Result: `none` models the crash on a null `latest_matching_entry`
dereference; `some none` models returning NULL; `some (some off)` models
returning the record at offset `off`. -/
def readPathGo (d : Disk) : List (List Nat) → Nat → Bool → Option (Option Nat)
  | [], cur, found =>
    if found then some (read_inumber d (cur % 4294967296)) else some none
  | tok :: rest, cur, _ =>
    match read_inumber d (cur % 4294967296) with
    | none => none
    | some off =>
      if S_ISDIR (readU32 d (off + 8)) then
        match findDentry d (off + 44) (readU32 d (off + 24)) tok with
        | some inum => readPathGo d rest inum true
        | none => readPathGo d rest cur false
      else some none

/-- `read_path` (mount.wfs.c): resolve a path to the offset of its latest
inode record. -/
def read_path (d : Disk) (path : List Nat) : Option (Option Nat) :=
  readPathGo d (tokenize path) 0 true

/-- `parsepath` (mount.wfs.c): basename is the last token; dirname is every
earlier token followed by a '/'. With no token at all both output buffers
keep their zeroed contents, i.e. both strings are empty. -/
def parsepath (path : List Nat) : List Nat × List Nat :=
  ((tokenize path).getLastD [],
   (tokenize path).dropLast.foldl (fun a t => a ++ t ++ [47]) [])

/-- The append pattern shared by every mutating operation:
`memcpy(mapped_disk + head, bytes, len); head += len`. The head store
truncates to u32 as the field does. -/
def appendEntry (d : Disk) (bytes : List Nat) : Disk :=
  writeU32 (writeBytes d (readHead d) bytes) 4 (readHead d + bytes.length)

/-- The code `wfs_mknod` and `wfs_mkdir` share verbatim from the first
ENOSPC test onward (mount.wfs.c lines 171-227 and 253-309): append the
64-byte-free child record, re-split the path, resolve the parent on the
grown log, build the rewritten parent record with the new dentry appended
to its payload, and append it. Both ENOSPC tests compare only
`sizeof(*new_log)` / `sizeof(*new_parent_log)` — 44 bytes, never the
payload — against DISK_SIZE. -/
def mknodTail (ds : Nat) (d : Disk) (path : List Nat) (child : Inode) (now : Nat) :
    Option (Int × Disk) :=
  if readHead d + 44 > ds then some (-28, d)
  else
    let d1 := appendEntry d (encodeInode child)
    let nmdir := parsepath path
    match read_path d1 nmdir.2 with
    | none => none
    | some none => some (-2, d1)
    | some (some poff) =>
      let p := decodeInode d1 poff
      let newPSize := (p.size + 40) % 4294967296
      let np : Inode :=
        ⟨p.inode_number, 0, p.mode, p.uid, p.gid, p.flags, newPSize,
         now, now, now, p.links⟩
      let data := writeBytes
        (writeBytes (List.replicate newPSize 0) 0 (readBytes d1 (poff + 44) p.size))
        p.size (encodeDentry nmdir.1 child.inode_number)
      if readHead d1 + 44 > ds then some (-28, d1)
      else some (0, appendEntry d1 (encodeInode np ++ data))

/-- `wfs_mknod` (mount.wfs.c). `ds` is DISK_SIZE; `now` stands for the
`time(NULL)` calls of one invocation. Returns the FUSE status and the new
disk, or `none` on a crash inside `read_path`. -/
def wfs_mknod (ds : Nat) (d : Disk) (path : List Nat) (mode uid gid now : Nat) :
    Option (Int × Disk) :=
  match read_path d path with
  | none => none
  | some (some _) => some (-17, d)
  | some none =>
    mknodTail ds d path
      ⟨(get_largest_inumber d + 1) % 4294967296, 0, mode, uid, gid, 0, 0,
       now, now, now, 1⟩ now

/-- `wfs_mkdir` (mount.wfs.c): identical to `wfs_mknod` in the source except
that the stored mode is `S_IFDIR | mode`. -/
def wfs_mkdir (ds : Nat) (d : Disk) (path : List Nat) (mode uid gid now : Nat) :
    Option (Int × Disk) :=
  match read_path d path with
  | none => none
  | some (some _) => some (-17, d)
  | some none =>
    mknodTail ds d path
      ⟨(get_largest_inumber d + 1) % 4294967296, 0, orDirBit mode, uid, gid, 0, 0,
       now, now, now, 1⟩ now

/-- `wfs_read` (mount.wfs.c), fi == NULL branch (path lookup). Returns the
int result, the bytes copied to the caller buffer, and the disk — the
source updates atime and ctime of the mapped record in place. `size - offset`
underflows exactly as the C `size_t` expression does; the source then guards
`size < 0`, which on the unsigned type can never hold (kept verbatim). -/
def wfs_read (d : Disk) (path : List Nat) (size offset now : Nat) :
    Option (Int × List Nat × Disk) :=
  match read_path d path with
  | none => none
  | some none => some (-2, [], d)
  | some (some off) =>
    if S_ISREG (readU32 d (off + 8)) then
      let oldSize := readU32 d (off + 24)
      let maxSize := (oldSize % 18446744073709551616
        + (18446744073709551616 - offset % 18446744073709551616)) % 18446744073709551616
      let size2 := if size < maxSize then size else maxSize
      if size2 < 0 then some (0, [], d)
      else
        let bytesRead := readBytes d (off + 44 + offset) size2
        let d2 := writeU32 (writeU32 d (off + 28) now) (off + 36) now
        some ((size2 : Int), bytesRead, d2)
    else some (-21, [], d)

/-- `wfs_write` (mount.wfs.c), fi == NULL branch. `grow_size` is the literal
unsigned expression `offset + size - inode->size` on 64 bits; the following
`grow_size > 0 ? grow_size : 0` is kept although it never changes an
unsigned value. The first ENOSPC test adds `grow_size` to the head pointer,
which wraps modulo 2^64 (modelling note above). -/
def wfs_write (ds : Nat) (d : Disk) (path buf : List Nat) (size offset now : Nat) :
    Option (Int × Disk) :=
  match read_path d path with
  | none => none
  | some none => some (-2, d)
  | some (some off) =>
    if S_ISREG (readU32 d (off + 8)) then
      let oldSize := readU32 d (off + 24)
      let growSize := (offset + size
        + (18446744073709551616 - oldSize % 18446744073709551616)) % 18446744073709551616
      let growSize := if growSize > 0 then growSize else 0
      if (readHead d + growSize) % 18446744073709551616 > ds then some (-28, d)
      else
        let newSize := (oldSize + growSize) % 18446744073709551616 % 4294967296
        let old := decodeInode d off
        let ni : Inode :=
          ⟨old.inode_number, old.deleted, old.mode, old.uid, old.gid, old.flags,
           newSize, now, now, now, old.links⟩
        let data := writeBytes
          (writeBytes (List.replicate newSize 0) 0 (readBytes d (off + 44) oldSize))
          offset (buf.take size)
        if readHead d + 44 + newSize > ds then some (-28, d)
        else some ((size : Int), appendEntry d (encodeInode ni ++ data))
    else some (-21, d)

/-- The dentry-copy loop of `wfs_unlink` / `wfs_rmdir`: walk the parent
payload in 40-byte steps, skip entries whose name strcmp-equals `name`, and
copy the others into the fresh buffer at `pos`. -/
def copyDentries (d : Disk) (pbase psize : Nat) (name : List Nat) :
    Nat → Nat → Nat → List Nat → List Nat
  | 0, _, _, buf => buf
  | fuel + 1, off, pos, buf =>
    if off < psize then
      if streq (readBytes d (pbase + off) 32) name then
        copyDentries d pbase psize name fuel (off + 40) pos buf
      else
        copyDentries d pbase psize name fuel (off + 40) (pos + 40)
          (writeBytes buf pos (readBytes d (pbase + off) 40))
    else buf

/-- `wfs_unlink` (mount.wfs.c). The source dereferences the `read_path`
result with no NULL check (modelled by `none`), decrements `links` in place
on the mapped record, sets `deleted = 1` in place when it reaches 0, and
then appends a rewritten parent entry whose ENOSPC test covers only
`sizeof(*new_parent_log)` — 44 bytes, without the payload. -/
def wfs_unlink (ds : Nat) (d : Disk) (path : List Nat) (now : Nat) :
    Option (Int × Disk) :=
  match read_path d path with
  | none => none
  | some none => none
  | some (some off) =>
    let links2 := (readU32 d (off + 40) + 4294967295) % 4294967296
    let dA := writeU32 d (off + 40) links2
    let dB := if links2 == 0 then writeU32 dA (off + 4) 1 else dA
    let nmdir := parsepath path
    match read_path dB nmdir.2 with
    | none => none
    | some none => some (-2, dB)
    | some (some poff) =>
      let p := decodeInode dB poff
      let newPSize := (p.size + 18446744073709551576) % 18446744073709551616 % 4294967296
      let np : Inode :=
        ⟨p.inode_number, 0, p.mode, p.uid, p.gid, p.flags, newPSize,
         now, now, now, p.links⟩
      let data := copyDentries dB (poff + 44) p.size nmdir.1 (p.size + 1) 0 0
        (List.replicate newPSize 0)
      if readHead dB + 44 > ds then some (-28, dB)
      else some (0, appendEntry dB (encodeInode np ++ data))

/-- `wfs_rmdir` (mount.wfs.c): byte-for-byte the same body as `wfs_unlink`
in the source. -/
def wfs_rmdir (ds : Nat) (d : Disk) (path : List Nat) (now : Nat) :
    Option (Int × Disk) :=
  match read_path d path with
  | none => none
  | some none => none
  | some (some off) =>
    let links2 := (readU32 d (off + 40) + 4294967295) % 4294967296
    let dA := writeU32 d (off + 40) links2
    let dB := if links2 == 0 then writeU32 dA (off + 4) 1 else dA
    let nmdir := parsepath path
    match read_path dB nmdir.2 with
    | none => none
    | some none => some (-2, dB)
    | some (some poff) =>
      let p := decodeInode dB poff
      let newPSize := (p.size + 18446744073709551576) % 18446744073709551616 % 4294967296
      let np : Inode :=
        ⟨p.inode_number, 0, p.mode, p.uid, p.gid, p.flags, newPSize,
         now, now, now, p.links⟩
      let data := copyDentries dB (poff + 44) p.size nmdir.1 (p.size + 1) 0 0
        (List.replicate newPSize 0)
      if readHead dB + 44 > ds then some (-28, dB)
      else some (0, appendEntry dB (encodeInode np ++ data))

/-- The fresh superblock fsck writes at offset 0: magic 0xdeadbeef and
head = sizeof(struct wfs_sb) = 8. -/
def sbBytes : List Nat := u32Bytes 3735928559 ++ u32Bytes 8

/-- The final loop of `fsck` (fsck.wfs.c) is
`for (char *p = mapped_disk + head; p < mapped_disk + DISK_SIZE; p++) p = 0;`
— its body assigns the cursor itself, never `*p`, so it stores no byte to
the disk; its effect on the disk is the identity (as written the loop also
never makes progress towards its bound). -/
def clearTail (d : Disk) : Disk := d

/-- The compaction loop of `fsck`: while `inode_number` is below
`get_largest_inumber()` (re-evaluated on the current disk each iteration),
find the latest entry for it (null dereference if there is none), check
space with the full record size, and append a copy of the record. The fuel
only bounds recursion; the loop is in fact never entered because fsck has
already reset head (see `fsck`). -/
def fsckLoop (ds : Nat) : Nat → Nat → Disk → Option (Int × Disk)
  | 0, _, _ => none
  | fuel + 1, i, d =>
    if i < get_largest_inumber d then
      match scanLatest d i (readHead d) 8 none with
      | none => none
      | some off =>
        let sz := readU32 d (off + 24)
        if readHead d + 44 + sz > ds then some (-28, d)
        else fsckLoop ds fuel (i + 1) (appendEntry d (readBytes d off (44 + sz)))
    else some (0, clearTail d)

/-- `fsck` (fsck.wfs.c): writes the fresh superblock (head = 8) FIRST, then
runs the compaction loop — whose bound `get_largest_inumber()` now scans an
empty log and returns 0, so the loop body is dead code. -/
def fsck (ds : Nat) (d : Disk) : Option (Int × Disk) :=
  let d1 := writeBytes d 0 sbBytes
  fsckLoop ds (get_largest_inumber d1 + 1) 0 d1

/-! Concrete disk images used by the witnesses and counterexamples. -/

/-- A freshly mkfs-ed disk (mkfs.wfs.c): superblock with head
`sizeof(struct wfs_sb) + sizeof(struct wfs_log_entry)` = 52, then the root
directory record (inode 0, S_IFDIR, empty payload). -/
def mkfsDisk : Disk :=
  u32Bytes 3735928559 ++ u32Bytes 52 ++ encodeInode ⟨0, 0, 16384, 0, 0, 0, 0, 0, 0, 0, 1⟩

/-- A disk whose single log entry bears inode number 1 with `deleted = 1`. -/
def deletedOnlyDisk : Disk :=
  u32Bytes 3735928559 ++ u32Bytes 52 ++ encodeInode ⟨1, 1, 32768, 0, 0, 0, 0, 0, 0, 0, 1⟩

/-- Root directory holding the single entry "b" -> inode 1 (a regular file);
head = 136. The name "a" appears nowhere. -/
def rootOnlyB : Disk :=
  u32Bytes 3735928559 ++ u32Bytes 136 ++ encodeInode ⟨0, 0, 16384, 0, 0, 0, 40, 0, 0, 0, 1⟩
    ++ encodeDentry [98] 1 ++ encodeInode ⟨1, 0, 32768, 0, 0, 0, 0, 0, 0, 0, 1⟩

/-- Root directory with entry "a" -> inode 1, a 5-byte regular file
("hello"); head = 141, all timestamps 0. -/
def fileA5 : Disk :=
  u32Bytes 3735928559 ++ u32Bytes 141 ++ encodeInode ⟨0, 0, 16384, 0, 0, 0, 40, 0, 0, 0, 1⟩
    ++ encodeDentry [97] 1 ++ encodeInode ⟨1, 0, 32768, 0, 0, 0, 5, 0, 0, 0, 1⟩
    ++ [104, 101, 108, 108, 111]

/-- Root directory with entry "a" -> inode 1, a 10-byte regular file;
head = 146, followed by 254 free bytes so appends land on the image. -/
def fileA10 : Disk :=
  u32Bytes 3735928559 ++ u32Bytes 146 ++ encodeInode ⟨0, 0, 16384, 0, 0, 0, 40, 0, 0, 0, 1⟩
    ++ encodeDentry [97] 1 ++ encodeInode ⟨1, 0, 32768, 0, 0, 0, 10, 0, 0, 0, 1⟩
    ++ [1, 2, 3, 4, 5, 6, 7, 8, 9, 10] ++ List.replicate 254 0

/-- Root directory with entries "a" -> inode 1 and "b" -> inode 2, both
empty regular files; head = 220. -/
def twoFiles : Disk :=
  u32Bytes 3735928559 ++ u32Bytes 220 ++ encodeInode ⟨0, 0, 16384, 0, 0, 0, 80, 0, 0, 0, 1⟩
    ++ encodeDentry [97] 1 ++ encodeDentry [98] 2
    ++ encodeInode ⟨1, 0, 32768, 0, 0, 0, 0, 0, 0, 0, 1⟩
    ++ encodeInode ⟨2, 0, 32768, 0, 0, 0, 0, 0, 0, 0, 1⟩

/-! Byte-level lemmas about the disk primitives. -/

theorem readByte_oob (d : Disk) (i : Nat) (h : d.length ≤ i) : readByte d i = 0 := by
  induction d generalizing i with
  | nil => rfl
  | cons a l ih =>
    cases i with
    | zero => exact absurd h (by simp)
    | succ j => exact ih j (by simpa using h)

theorem readByte_set_ne (d : Disk) (i j v : Nat) (h : i ≠ j) :
    readByte (d.set i v) j = readByte d j := by
  induction d generalizing i j with
  | nil => rfl
  | cons a l ih =>
    cases i with
    | zero =>
      cases j with
      | zero => exact absurd rfl h
      | succ j2 => rfl
    | succ i2 =>
      cases j with
      | zero => rfl
      | succ j2 => exact ih i2 j2 (fun he => h (by rw [he]))

theorem readByte_set_self (d : Disk) (i v : Nat) :
    readByte (d.set i v) i = if i < d.length then v else 0 := by
  induction d generalizing i with
  | nil => simp [readByte]
  | cons a l ih =>
    cases i with
    | zero => simp [readByte, List.set]
    | succ j =>
      have : readByte ((a :: l).set (j + 1) v) (j + 1) = readByte (l.set j v) j := rfl
      rw [this, ih j]
      simp [Nat.succ_lt_succ_iff]

theorem writeBytes_length (bs : List Nat) : ∀ (d : Disk) (off : Nat),
    (writeBytes d off bs).length = d.length := by
  induction bs with
  | nil => intro d off; rfl
  | cons b bs ih =>
    intro d off
    show (writeBytes (d.set off b) (off + 1) bs).length = d.length
    rw [ih, List.length_set]

theorem readByte_writeBytes_lt (bs : List Nat) : ∀ (d : Disk) (off j : Nat), j < off →
    readByte (writeBytes d off bs) j = readByte d j := by
  induction bs with
  | nil => intro d off j _; rfl
  | cons b bs ih =>
    intro d off j h
    show readByte (writeBytes (d.set off b) (off + 1) bs) j = readByte d j
    rw [ih _ _ _ (Nat.lt_succ_of_lt h), readByte_set_ne _ _ _ _ (Nat.ne_of_gt h)]

theorem readByte_writeBytes_ge (bs : List Nat) : ∀ (d : Disk) (off j : Nat),
    off + bs.length ≤ j → readByte (writeBytes d off bs) j = readByte d j := by
  induction bs with
  | nil => intro d off j _; rfl
  | cons b bs ih =>
    intro d off j h
    show readByte (writeBytes (d.set off b) (off + 1) bs) j = readByte d j
    have hj : off + 1 + bs.length ≤ j := by simp at h; omega
    rw [ih _ _ _ hj, readByte_set_ne _ _ _ _ (by omega)]

theorem readByte_writeBytes_in (bs : List Nat) : ∀ (d : Disk) (off j : Nat),
    off ≤ j → j < off + bs.length →
    readByte (writeBytes d off bs) j = if j < d.length then bs.getD (j - off) 0 else 0 := by
  induction bs with
  | nil => intro d off j h1 h2; simp at h2; omega
  | cons b bs ih =>
    intro d off j h1 h2
    show readByte (writeBytes (d.set off b) (off + 1) bs) j = _
    rcases Nat.eq_or_lt_of_le h1 with he | hlt
    · subst he
      rw [readByte_writeBytes_lt _ _ _ _ (Nat.lt_succ_self _), readByte_set_self]
      simp
    · have : j - off = (j - (off + 1)) + 1 := by omega
      rw [ih _ _ _ hlt (by simp at h2 ⊢; omega), this]
      simp only [List.getD_cons_succ, List.length_set]

theorem u32Bytes_length (v : Nat) : (u32Bytes v).length = 4 := rfl

theorem readU32_writeU32 (d : Disk) (off v : Nat) (h : off + 4 ≤ d.length) :
    readU32 (writeU32 d off v) off = v % 4294967296 := by
  unfold readU32 writeU32
  rw [readByte_writeBytes_in _ _ _ _ (Nat.le_refl _)
        (by simp only [u32Bytes, List.length_cons, List.length_nil]; omega),
      readByte_writeBytes_in _ _ _ _ (by omega)
        (by simp only [u32Bytes, List.length_cons, List.length_nil]; omega),
      readByte_writeBytes_in _ _ _ _ (by omega)
        (by simp only [u32Bytes, List.length_cons, List.length_nil]; omega),
      readByte_writeBytes_in _ _ _ _ (by omega)
        (by simp only [u32Bytes, List.length_cons, List.length_nil]; omega)]
  have h0 : off < d.length := by omega
  have h1 : off + 1 < d.length := by omega
  have h2 : off + 2 < d.length := by omega
  have h3 : off + 3 < d.length := by omega
  rw [if_pos h0, if_pos h1, if_pos h2, if_pos h3]
  simp only [Nat.sub_self, u32Bytes]
  have e1 : off + 1 - off = 1 := by omega
  have e2 : off + 2 - off = 2 := by omega
  have e3 : off + 3 - off = 3 := by omega
  rw [e1, e2, e3]
  simp only [List.getD_cons_zero, List.getD_cons_succ]
  omega

theorem set_comm_ne (d : Disk) : ∀ (i j a b : Nat), i ≠ j →
    (d.set i a).set j b = (d.set j b).set i a := by
  induction d with
  | nil => intro i j a b _; rfl
  | cons x l ih =>
    intro i j a b h
    cases i with
    | zero =>
      cases j with
      | zero => exact absurd rfl h
      | succ j2 => rfl
    | succ i2 =>
      cases j with
      | zero => rfl
      | succ j2 =>
        show x :: (l.set i2 a).set j2 b = x :: (l.set j2 b).set i2 a
        rw [ih i2 j2 a b (fun he => h (by rw [he]))]

theorem writeBytes_set_lt (bs : List Nat) : ∀ (d : Disk) (off i v : Nat), i < off →
    writeBytes (d.set i v) off bs = (writeBytes d off bs).set i v := by
  induction bs with
  | nil => intro d off i v _; rfl
  | cons b bs ih =>
    intro d off i v h
    show writeBytes ((d.set i v).set off b) (off + 1) bs = _
    rw [set_comm_ne _ _ _ _ _ (by omega), ih _ _ _ _ (Nat.lt_succ_of_lt h)]
    rfl

theorem writeBytes_writeBytes_same (bs : List Nat) : ∀ (d : Disk) (off : Nat),
    writeBytes (writeBytes d off bs) off bs = writeBytes d off bs := by
  induction bs with
  | nil => intro d off; rfl
  | cons b bs ih =>
    intro d off
    show writeBytes ((writeBytes (d.set off b) (off + 1) bs).set off b) (off + 1) bs
      = writeBytes (d.set off b) (off + 1) bs
    rw [← writeBytes_set_lt _ _ _ _ _ (Nat.lt_succ_self off), List.set_set, ih]

theorem appendEntry_length (d : Disk) (bytes : List Nat) :
    (appendEntry d bytes).length = d.length := by
  unfold appendEntry writeU32
  rw [writeBytes_length, writeBytes_length]

theorem readByte_appendEntry (d : Disk) (bytes : List Nat) (i : Nat) (h8 : 8 ≤ i)
    (h : i < readHead d ∨ d.length ≤ i) :
    readByte (appendEntry d bytes) i = readByte d i := by
  rcases h with hlt | hge
  · unfold appendEntry writeU32
    rw [readByte_writeBytes_ge _ _ _ _ (by simp [u32Bytes]; omega),
        readByte_writeBytes_lt _ _ _ _ hlt]
  · rw [readByte_oob _ _ (by rw [appendEntry_length]; exact hge), readByte_oob _ _ hge]

theorem readHead_appendEntry (d : Disk) (bytes : List Nat) (h : 8 ≤ d.length) :
    readHead (appendEntry d bytes) = (readHead d + bytes.length) % 4294967296 := by
  unfold appendEntry
  show readU32 (writeU32 (writeBytes d (readHead d) bytes) 4 _) 4 = _
  rw [readU32_writeU32 _ _ _ (by rw [writeBytes_length]; omega)]

/-! Tokenization lemmas: strtok(path, "/") takes maximal non-empty runs
between '/' bytes, so redundant separators cannot change the token list. -/

theorem tokAux_double (ys : List Nat) : ∀ (xs cur : List Nat),
    tokAux (xs ++ 47 :: 47 :: ys) cur = tokAux (xs ++ 47 :: ys) cur := by
  intro xs
  induction xs with
  | nil =>
    intro cur
    by_cases hc : cur = []
    · subst hc; simp [tokAux]
    · simp [tokAux, hc]
  | cons c xs ih =>
    intro cur
    by_cases hc : c = 47
    · subst hc
      by_cases hcur : cur = []
      · subst hcur; simp [tokAux, ih]
      · simp [tokAux, hcur, ih]
    · simp [tokAux, hc, ih]

theorem tokAux_trailing : ∀ (xs cur : List Nat),
    tokAux (xs ++ [47]) cur = tokAux xs cur := by
  intro xs
  induction xs with
  | nil =>
    intro cur
    by_cases hc : cur = []
    · subst hc; simp [tokAux]
    · simp [tokAux, hc]
  | cons c xs ih =>
    intro cur
    by_cases hc : c = 47
    · subst hc
      by_cases hcur : cur = []
      · subst hcur; simp [tokAux, ih]
      · simp [tokAux, hcur, ih]
    · simp [tokAux, hc, ih]

/-- C10: Path resolution is insensitive to redundant slashes: collapsing a
doubled '/' separator anywhere in the path, or dropping a trailing '/',
leaves the result of `read_path` — resolved record and success/failure
outcome alike — unchanged, because components are the maximal non-empty
substrings between slashes. Iterating the two equations turns any variant
such as "//a///b/" into "/a/b". -/
theorem c10_redundant_slashes (d : Disk) (xs ys : List Nat) :
    read_path d (xs ++ 47 :: 47 :: ys) = read_path d (xs ++ 47 :: ys)
    ∧ read_path d (xs ++ [47]) = read_path d xs := by
  constructor
  · unfold read_path tokenize
    rw [tokAux_double]
  · unfold read_path tokenize
    rw [tokAux_trailing]

/-- C1 counterexample: on `deletedOnlyDisk` the only record for inode 1 has
`deleted = 1` (its deleted field, at byte 12, is 1), yet `read_inumber`
returns it: the source never consults the deleted flag, while the claim
requires that a record with deleted == 1 is never the result and that the
lookup return none when no record for n has deleted == 0. -/
theorem c1_counterexample :
    read_inumber deletedOnlyDisk 1 = some 8 ∧ readU32 deletedOnlyDisk 12 = 1 :=
  ⟨rfl, rfl⟩

/-- C2: fsck on a freshly mkfs-ed disk. The source resets the superblock
head to 8 before scanning, so `get_largest_inumber` then sees an empty log,
the copy loop never runs, and the root's live record is no longer part of
the log: fsck discards every live inode instead of preserving them. -/
theorem c2_fsck_discards_live_root :
    fsck 1024 mkfsDisk = some (0, writeBytes mkfsDisk 0 sbBytes)
    ∧ (fsck 1024 mkfsDisk).map (fun t => readHead t.2) = some 8
    ∧ read_inumber mkfsDisk 0 = some 8
    ∧ (fsck 1024 mkfsDisk).map (fun t => read_inumber t.2 0) = some none :=
  ⟨rfl, rfl, rfl, rfl⟩

/-- C3: writing 2 bytes at offset 0 into a 10-byte file. `grow_size =
offset + size - inode->size` underflows on the unsigned type, and the new
record's size field (byte offset 170 = 146 + 24 of the appended entry)
becomes 2 = (offset + size) mod 2^32 instead of max(10, 2) = 10: an
in-place overwrite truncates the file. -/
theorem c3_write_truncates :
    readU32 fileA10 116 = 10
    ∧ (wfs_write 10000 fileA10 [47, 97] [7, 7] 2 0 50).map
        (fun t => (t.1, readU32 t.2 170)) = some (2, 2) :=
  ⟨rfl, rfl⟩

/-- C4: reading 3 bytes at offset 10 from a 5-byte file. `inode->size -
offset` underflows, the guard `size < 0` can never hold on the unsigned
type, and the call returns 3 instead of the 0 the claim requires for
offset ≥ size. -/
theorem c4_read_past_end :
    readU32 fileA5 116 = 5
    ∧ (wfs_read fileA5 [47, 97] 3 10 99).map (fun t => t.1) = some 3 :=
  ⟨rfl, rfl⟩

/-- C5: on a disk whose root holds only "b" -> inode 1, resolving "/a"
fails, yet resolving "/a/b" succeeds and yields the record of /b (offset
92): when a component is missing, `read_path` keeps scanning the same
directory with the remaining components instead of failing. -/
theorem c5_skips_missing_component :
    read_path rootOnlyB [47, 97] = some none
    ∧ read_path rootOnlyB [47, 97, 47, 98] = some (some 92) :=
  ⟨rfl, rfl⟩

/-- C7: unlink("/a") on `twoFiles` with DISK_SIZE = 270. The rewritten
parent entry totals 84 bytes, so head + total = 304 > 270, but the source
checks only head + sizeof(*new_parent_log) = 264 ≤ 270: the operation
reports success and the head lands past DISK_SIZE instead of failing with
NoSpace. -/
theorem c7_nospace_check_misses_payload :
    readHead twoFiles = 220
    ∧ (wfs_unlink 270 twoFiles [47, 97] 60).map
        (fun t => (t.1, readHead t.2)) = some (0, 304) :=
  ⟨rfl, rfl⟩

/-- C8: unlink and rmdir of a path that does not resolve ("/n" on a fresh
disk). The source dereferences the NULL result of `read_path` without a
check (`unlink_inode->links--`), so the call crashes (modelled `none`)
instead of returning NotFound with the disk unchanged. -/
theorem c8_unlink_null_deref :
    wfs_unlink 1024 mkfsDisk [47, 110] 5 = none
    ∧ wfs_rmdir 1024 mkfsDisk [47, 110] 5 = none :=
  ⟨rfl, rfl⟩

/-- C6 counterexample: a plain read mutates a byte of a previously written
log entry in place. Byte 120 lies inside [8, head) of `fileA5` (its head is
141) and holds the atime field of the file's record; after
`wfs_read(..., now = 99)` it holds 99, not its old value 0. -/
theorem c6_counterexample :
    8 ≤ 120 ∧ 120 < readHead fileA5 ∧ readByte fileA5 120 = 0
    ∧ (wfs_read fileA5 [47, 97] 3 10 99).map
        (fun t => readByte t.2.2 120) = some 99 :=
  ⟨by omega, by decide, rfl, rfl⟩

/-! Characterization of the scan loop of `read_inumber`. -/

/-- Left-biased choice on options, used to state what the accumulator of the
scan loop ends up as. -/
def optOr : Option Nat → Option Nat → Option Nat
  | some x, _ => some x
  | none, b => b

theorem scanOffsetsF_succ (d : Disk) (fuel pos : Nat) :
    scanOffsetsF d (fuel + 1) pos
      = if pos < readHead d then pos :: scanOffsetsF d fuel (scanStep d pos) else [] := rfl

theorem scanLatest_succ (d : Disk) (n fuel pos : Nat) (acc : Option Nat) :
    scanLatest d n (fuel + 1) pos acc
      = if pos < readHead d then
          scanLatest d n fuel (scanStep d pos)
            (if readU32 d pos == n then some pos else acc)
        else acc := rfl

theorem scanLatest_eq_foldl (d : Disk) (n : Nat) : ∀ (fuel pos : Nat) (acc : Option Nat),
    scanLatest d n fuel pos acc
      = (scanOffsetsF d fuel pos).foldl
          (fun a off => if readU32 d off == n then some off else a) acc := by
  intro fuel
  induction fuel with
  | zero => intro pos acc; rfl
  | succ fuel ih =>
    intro pos acc
    rw [scanLatest_succ, scanOffsetsF_succ]
    by_cases h : pos < readHead d
    · rw [if_pos h, if_pos h, ih, List.foldl_cons]
    · rw [if_neg h, if_neg h, List.foldl_nil]

theorem foldl_latest (p : Nat → Bool) : ∀ (l : List Nat) (acc : Option Nat),
    l.foldl (fun a off => if p off then some off else a) acc
      = optOr (l.filter p).getLast? acc := by
  intro l
  induction l with
  | nil => intro acc; rfl
  | cons x l ih =>
    intro acc
    rw [List.foldl_cons, ih]
    by_cases hp : p x
    · rw [if_pos hp, List.filter_cons_of_pos hp]
      cases ht : l.filter p with
      | nil => simp [optOr]
      | cons c t => rw [List.getLast?_cons_cons]; rfl
    · rw [if_neg hp, List.filter_cons_of_neg hp]

theorem optGetLast_mem : ∀ (l : List Nat) (x : Nat), l.getLast? = some x → x ∈ l := by
  intro l
  induction l with
  | nil => intro x h; exact absurd h (by simp)
  | cons a t ih =>
    intro x h
    cases t with
    | nil =>
      simp only [List.getLast?_singleton, Option.some.injEq] at h
      simp [h]
    | cons b t2 =>
      rw [List.getLast?_cons_cons] at h
      exact List.mem_cons_of_mem a (ih x h)

theorem optGetLast_cons : ∀ (t : List Nat) (a : Nat), ∃ x, (a :: t).getLast? = some x := by
  intro t
  induction t with
  | nil => intro a; exact ⟨a, rfl⟩
  | cons b t ih =>
    intro a
    obtain ⟨x, hx⟩ := ih b
    exact ⟨x, by rw [List.getLast?_cons_cons]; exact hx⟩

theorem optGetLast_none : ∀ (l : List Nat), l.getLast? = none ↔ l = [] := by
  intro l
  cases l with
  | nil => simp
  | cons a t =>
    obtain ⟨x, hx⟩ := optGetLast_cons t a
    rw [hx]
    constructor
    · intro h; exact absurd h (by simp)
    · intro h; exact absurd h (by simp)

theorem scanOffsetsF_lb (d : Disk) : ∀ (fuel pos : Nat),
    ∀ o ∈ scanOffsetsF d fuel pos, pos ≤ o := by
  intro fuel
  induction fuel with
  | zero => intro pos o ho; exact absurd ho (by simp [scanOffsetsF])
  | succ fuel ih =>
    intro pos o ho
    rw [scanOffsetsF_succ] at ho
    by_cases h : pos < readHead d
    · rw [if_pos h] at ho
      rcases List.mem_cons.mp ho with rfl | ho2
      · exact Nat.le_refl o
      · have := ih (scanStep d pos) o ho2
        unfold scanStep at this
        omega
    · rw [if_neg h] at ho
      exact absurd ho (by simp)

theorem scanOffsetsF_sorted (d : Disk) : ∀ (fuel pos : Nat),
    (scanOffsetsF d fuel pos).Pairwise (· < ·) := by
  intro fuel
  induction fuel with
  | zero => intro pos; simp [scanOffsetsF]
  | succ fuel ih =>
    intro pos
    rw [scanOffsetsF_succ]
    by_cases h : pos < readHead d
    · rw [if_pos h]
      rw [List.pairwise_cons]
      refine ⟨fun o ho => ?_, ih (scanStep d pos)⟩
      have := scanOffsetsF_lb d fuel (scanStep d pos) o ho
      unfold scanStep at this
      omega
    · rw [if_neg h]; simp

theorem getLast_is_max : ∀ (l : List Nat), l.Pairwise (· < ·) →
    ∀ x, l.getLast? = some x → ∀ y ∈ l, y ≤ x := by
  intro l
  induction l with
  | nil => intro _ x _ y hy; exact absurd hy (by simp)
  | cons a t ih =>
    intro hp x hx y hy
    cases t with
    | nil =>
      simp only [List.getLast?_singleton, Option.some.injEq] at hx
      rcases List.mem_singleton.mp hy with rfl
      exact Nat.le_of_eq hx
    | cons b t2 =>
      rw [List.getLast?_cons_cons] at hx
      rw [List.pairwise_cons] at hp
      rcases List.mem_cons.mp hy with rfl | hy2
      · exact Nat.le_of_lt (hp.1 x (optGetLast_mem _ _ hx))
      · exact ih hp.2 x hx y hy2

/-- C1 (amended): `read_inumber` returns the scanned record for `n` at the
highest byte offset below head REGARDLESS of its deleted field — the offset
it returns belongs to `matchOffsets` (the scanned offsets whose entry bears
inode number `n`, deleted or not) and dominates all of them — and it
returns none exactly when no scanned record bears `n`. The claim's
deleted == 0 filter does not exist in the source (see
`c1_counterexample`). -/
theorem c1_latest_match_any_deleted (d : Disk) (n : Nat) :
    (∀ off, read_inumber d n = some off →
      off ∈ matchOffsets d n ∧ ∀ o ∈ matchOffsets d n, o ≤ off)
    ∧ (read_inumber d n = none ↔ matchOffsets d n = []) := by
  have hfold : read_inumber d n = optOr (matchOffsets d n).getLast? none := by
    unfold read_inumber matchOffsets scanChain
    rw [scanLatest_eq_foldl, foldl_latest]
  have hsorted : (matchOffsets d n).Pairwise (· < ·) :=
    List.Pairwise.sublist (List.filter_sublist _) (scanOffsetsF_sorted d _ _)
  constructor
  · intro off h
    rw [hfold] at h
    cases hX : (matchOffsets d n).getLast? with
    | none => rw [hX] at h; exact absurd h (by simp [optOr])
    | some y =>
      rw [hX] at h
      have hyo : y = off := by simpa [optOr] using h
      subst hyo
      exact ⟨optGetLast_mem _ _ hX, fun o ho => getLast_is_max _ hsorted _ hX o ho⟩
  · rw [hfold]
    constructor
    · intro h
      cases hX : (matchOffsets d n).getLast? with
      | none => exact (optGetLast_none _).mp hX
      | some y => rw [hX] at h; exact absurd h (by simp [optOr])
    · intro he
      rw [he]
      rfl

/-- Witness for C1 on `deletedOnlyDisk`: the returned offset 8 is a scanned
match for inode 1 and dominates every scanned match. -/
theorem c1_witness :
    8 ∈ matchOffsets deletedOnlyDisk 1 ∧ ∀ o ∈ matchOffsets deletedOnlyDisk 1, o ≤ 8 :=
  (c1_latest_match_any_deleted deletedOnlyDisk 1).1 8 (by rfl)

/-! fsck resets head before scanning, so its compaction loop is dead code. -/

theorem getLargestF_succ (d : Disk) (fuel pos acc : Nat) :
    getLargestF d (fuel + 1) pos acc
      = if pos < readHead d then
          getLargestF d fuel (scanStep d pos)
            (if acc < readU32 d pos then readU32 d pos else acc)
        else acc := rfl

theorem fsckLoop_succ (ds fuel i : Nat) (d : Disk) :
    fsckLoop ds (fuel + 1) i d
      = if i < get_largest_inumber d then
          match scanLatest d i (readHead d) 8 none with
          | none => none
          | some off =>
            let sz := readU32 d (off + 24)
            if readHead d + 44 + sz > ds then some (-28, d)
            else fsckLoop ds fuel (i + 1) (appendEntry d (readBytes d off (44 + sz)))
        else some (0, clearTail d) := rfl

theorem readHead_writeSB (d : Disk) :
    readHead (writeBytes d 0 sbBytes) = if 4 < d.length then 8 else 0 := by
  unfold readHead readU32
  rw [readByte_writeBytes_in _ _ _ _ (by omega) (by decide),
      readByte_writeBytes_in _ _ _ _ (by omega) (by decide),
      readByte_writeBytes_in _ _ _ _ (by omega) (by decide),
      readByte_writeBytes_in _ _ _ _ (by omega) (by decide)]
  have e5 : sbBytes.getD (5 - 0) 0 = 0 := rfl
  have e6 : sbBytes.getD (6 - 0) 0 = 0 := rfl
  have e7 : sbBytes.getD (7 - 0) 0 = 0 := rfl
  rw [e5, e6, e7]
  have e4 : sbBytes.getD (4 - 0) 0 = 8 := rfl
  rw [e4]
  by_cases h4 : 4 < d.length
  · simp only [ite_self]
    rw [if_pos h4]
  · simp only [ite_self]
    rw [if_neg h4]

theorem getLargestF_stop (d : Disk) (h : ¬ 8 < readHead d) :
    ∀ fuel, getLargestF d fuel 8 0 = 0 := by
  intro fuel
  cases fuel with
  | zero => rfl
  | succ f => rw [getLargestF_succ, if_neg h]

/-- What fsck actually does to every disk: it writes the fresh superblock
(head = 8) and nothing else. `get_largest_inumber`, evaluated only after
the head was reset, scans an empty log and returns 0, so the copy loop
exits immediately and the trailing clear loop stores no byte. -/
theorem fsck_resets (ds : Nat) (d : Disk) :
    fsck ds d = some (0, writeBytes d 0 sbBytes) := by
  have hle : readHead (writeBytes d 0 sbBytes) ≤ 8 := by
    rw [readHead_writeSB]; split <;> omega
  have h0 : get_largest_inumber (writeBytes d 0 sbBytes) = 0 :=
    getLargestF_stop _ (by omega) _
  show fsckLoop ds (get_largest_inumber (writeBytes d 0 sbBytes) + 1) 0
    (writeBytes d 0 sbBytes) = _
  rw [h0, fsckLoop_succ, if_neg (by rw [h0]; omega)]
  rfl

/-- C9: fsck is idempotent — a second run on the output of a successful run
returns the same status and a byte-identical disk. (As the source stands
both runs merely rewrite the superblock; see `fsck_resets` and claim C2.) -/
theorem c9_fsck_idempotent (ds : Nat) (d d2 : Disk) (h : fsck ds d = some (0, d2)) :
    fsck ds d2 = some (0, d2) := by
  have h1 := fsck_resets ds d
  rw [h] at h1
  have hd2 : d2 = writeBytes d 0 sbBytes := by
    simpa using h1
  subst hd2
  rw [fsck_resets, writeBytes_writeBytes_same]

/-- Witness for C9: concrete double run of fsck on a freshly mkfs-ed disk. -/
theorem c9_witness :
    fsck 1024 (writeBytes mkfsDisk 0 sbBytes) = some (0, writeBytes mkfsDisk 0 sbBytes) :=
  c9_fsck_idempotent 1024 mkfsDisk (writeBytes mkfsDisk 0 sbBytes) (by rfl)

theorem encodeInode_length (ino : Inode) : (encodeInode ino).length = 44 := by
  simp [encodeInode, u32Bytes]

theorem mknodTail_pres (ds : Nat) (d : Disk) (path : List Nat) (child : Inode)
    (now i : Nat) (hds : ds < 4294967296) (h8 : 8 ≤ i) (hi : i < readHead d) :
    ∀ r d2, mknodTail ds d path child now = some (r, d2) →
      readByte d2 i = readByte d i := by
  intro r d2 h
  have hd1 : readByte (appendEntry d (encodeInode child)) i = readByte d i :=
    readByte_appendEntry _ _ _ h8 (Or.inl hi)
  unfold mknodTail at h
  by_cases hg1 : readHead d + 44 > ds
  · rw [if_pos hg1] at h
    simp only [Option.some.injEq, Prod.mk.injEq] at h
    rw [← h.2]
  · rw [if_neg hg1] at h
    simp only [] at h
    cases hrp : read_path (appendEntry d (encodeInode child)) (parsepath path).2 with
    | none => rw [hrp] at h; exact absurd h (by simp)
    | some o =>
      cases o with
      | none =>
        rw [hrp] at h
        simp only [Option.some.injEq, Prod.mk.injEq] at h
        rw [← h.2]; exact hd1
      | some poff =>
        rw [hrp] at h
        simp only [] at h
        by_cases hg2 : readHead (appendEntry d (encodeInode child)) + 44 > ds
        · rw [if_pos hg2] at h
          simp only [Option.some.injEq, Prod.mk.injEq] at h
          rw [← h.2]; exact hd1
        · rw [if_neg hg2] at h
          simp only [Option.some.injEq, Prod.mk.injEq] at h
          rw [← h.2]
          rcases Nat.lt_or_ge i d.length with hin | hout
          · have hh1 : readHead (appendEntry d (encodeInode child))
                = (readHead d + 44) % 4294967296 := by
              rw [readHead_appendEntry _ _ (by omega), encodeInode_length]
            have hh2 : readHead (appendEntry d (encodeInode child)) = readHead d + 44 := by
              rw [hh1, Nat.mod_eq_of_lt (by omega)]
            rw [readByte_appendEntry _ _ _ h8 (Or.inl (by omega)), hd1]
          · rw [readByte_oob _ _ (by
                rw [appendEntry_length, appendEntry_length]; exact hout),
              readByte_oob _ _ hout]

/-- C6 (amended): the append-only discipline holds for the operations that
do not touch the resolved record in place — getattr performs no store at
all, and mknod, mkdir and write change no byte of [sizeof(superblock),
head): they mutate the disk only by appending at head and updating the
superblock's head field. (read and readdir update the target record's
atime/ctime in place, and unlink/rmdir its links/deleted fields — see
`c6_counterexample` — so the claim cannot cover them.) -/
theorem c6_append_only_amended (ds : Nat) (d : Disk) (p : List Nat)
    (mode uid gid now i : Nat) (hds : ds < 4294967296) (h8 : 8 ≤ i)
    (hi : i < readHead d) :
    (∀ r d2, wfs_mknod ds d p mode uid gid now = some (r, d2) →
      readByte d2 i = readByte d i)
    ∧ (∀ r d2, wfs_mkdir ds d p mode uid gid now = some (r, d2) →
      readByte d2 i = readByte d i)
    ∧ (∀ buf sz off r d2, wfs_write ds d p buf sz off now = some (r, d2) →
      readByte d2 i = readByte d i) := by
  refine ⟨?_, ?_, ?_⟩
  · intro r d2 h
    unfold wfs_mknod at h
    cases hrp : read_path d p with
    | none => rw [hrp] at h; exact absurd h (by simp)
    | some o =>
      cases o with
      | some _ =>
        rw [hrp] at h
        simp only [Option.some.injEq, Prod.mk.injEq] at h
        rw [← h.2]
      | none =>
        rw [hrp] at h
        exact mknodTail_pres ds d p _ now i hds h8 hi r d2 h
  · intro r d2 h
    unfold wfs_mkdir at h
    cases hrp : read_path d p with
    | none => rw [hrp] at h; exact absurd h (by simp)
    | some o =>
      cases o with
      | some _ =>
        rw [hrp] at h
        simp only [Option.some.injEq, Prod.mk.injEq] at h
        rw [← h.2]
      | none =>
        rw [hrp] at h
        exact mknodTail_pres ds d p _ now i hds h8 hi r d2 h
  · intro buf sz off r d2 h
    unfold wfs_write at h
    cases hrp : read_path d p with
    | none => rw [hrp] at h; exact absurd h (by simp)
    | some o =>
      cases o with
      | none =>
        rw [hrp] at h
        simp only [Option.some.injEq, Prod.mk.injEq] at h
        rw [← h.2]
      | some foff =>
        rw [hrp] at h
        simp only [] at h
        by_cases hreg : S_ISREG (readU32 d (foff + 8))
        · rw [if_pos hreg] at h
          split at h
          · split at h
            · simp only [Option.some.injEq, Prod.mk.injEq] at h
              rw [← h.2]
            · split at h
              · simp only [Option.some.injEq, Prod.mk.injEq] at h
                rw [← h.2]
              · simp only [Option.some.injEq, Prod.mk.injEq] at h
                rw [← h.2]
                exact readByte_appendEntry _ _ _ h8 (Or.inl hi)
          · split at h
            · simp only [Option.some.injEq, Prod.mk.injEq] at h
              rw [← h.2]
            · split at h
              · simp only [Option.some.injEq, Prod.mk.injEq] at h
                rw [← h.2]
              · simp only [Option.some.injEq, Prod.mk.injEq] at h
                rw [← h.2]
                exact readByte_appendEntry _ _ _ h8 (Or.inl hi)
        · rw [if_neg hreg] at h
          simp only [Option.some.injEq, Prod.mk.injEq] at h
          rw [← h.2]

/-- Disk produced by the concrete write of the C6 witness. -/
def fileA10AfterWrite : Disk :=
  ((wfs_write 10000 fileA10 [47, 97] [7, 7] 2 0 50).getD (0, [])).2

/-- Witness for the amended C6: the concrete write on `fileA10` leaves byte
8 — the first byte of the first log entry — unchanged. -/
theorem c6_witness : readByte fileA10AfterWrite 8 = readByte fileA10 8 :=
  (c6_append_only_amended 10000 fileA10 [47, 97] 0 0 0 50 8 (by decide) (by decide)
    (by decide)).2.2 [7, 7] 2 0 2 fileA10AfterWrite (by rfl)

/-- Sanity check that the fuel in the scan chain is irrelevant once it
covers `readHead d` steps: the fueled chain is the chain of the C while
loop. -/
theorem scanOffsetsF_congr (d : Disk) : ∀ (fuel fuel2 pos : Nat),
    readHead d ≤ pos + fuel → readHead d ≤ pos + fuel2 →
    scanOffsetsF d fuel pos = scanOffsetsF d fuel2 pos := by
  intro fuel
  induction fuel with
  | zero =>
    intro fuel2 pos h1 h2
    cases fuel2 with
    | zero => rfl
    | succ f2 =>
      rw [scanOffsetsF_succ, if_neg (by omega)]
      rfl
  | succ fuel ih =>
    intro fuel2 pos h1 h2
    cases fuel2 with
    | zero =>
      rw [scanOffsetsF_succ, if_neg (by omega)]
      rfl
    | succ f2 =>
      rw [scanOffsetsF_succ, scanOffsetsF_succ]
      by_cases hp : pos < readHead d
      · rw [if_pos hp, if_pos hp]
        have hs : pos + 1 ≤ scanStep d pos := by unfold scanStep; omega
        rw [ih f2 (scanStep d pos) (by omega) (by omega)]
      · rw [if_neg hp, if_neg hp]
